import Mathlib

set_option autoImplicit false

/-!
Verification development for the plant-disease classifier inference module
(`model.py`, class `PlantDiseaseClassifier`).

Python strings are modelled as `List Char`; Python floats appearing in this
module are IEEE-754 binary32 values produced by numpy, modelled here as exact
rationals together with an explicit round-to-nearest-even function `fl32`
(exponent range is not modelled; every value of interest is far from both
overflow and the subnormal range, where `fl32` agrees with binary32).
-/

/-- Python strings, modelled as lists of characters. -/
abbrev PyStr := List Char

/-- The literal separator `"___"` used by `format_class_name`. -/
def sep3 : PyStr := "___".data

/-- The literal `"Unknown"` used for a missing condition or a missing
catalog entry. -/
def unknownStr : PyStr := "Unknown".data

/-- The literal `"healthy"` tested by `is_healthy`. -/
def healthyStr : PyStr := "healthy".data

/-- Python `str.lower()` restricted to the ASCII class names that occur in
this program: charwise lower-casing. -/
def lowerStr (s : PyStr) : PyStr := s.map Char.toLower

/-- Python `needle in hay` substring test: scan every suffix of `hay` for
`needle` as a prefix. -/
def hasSub (needle : PyStr) : PyStr → Bool
  | [] => List.isPrefixOf needle []
  | c :: t => List.isPrefixOf needle (c :: t) || hasSub needle t

/-- Python `s.replace(underscore, space)` for one-character arguments is a
charwise substitution. -/
def replUnd (s : PyStr) : PyStr :=
  s.map fun c => if c = '_' then ' ' else c

/-- Python `s.split(sep)` for a non-empty separator: scan left to right,
cut at each non-overlapping occurrence of `sep`.  An empty separator raises
in Python; here it degenerates to the one-segment result. -/
def pySplit (sep : PyStr) : PyStr → List PyStr
  | [] => [[]]
  | c :: t =>
    if hsep : sep = [] then [c :: t]
    else if List.isPrefixOf sep (c :: t) then
      [] :: pySplit sep (List.drop sep.length (c :: t))
    else
      match pySplit sep t with
      | [] => [[c]]
      | u :: us => (c :: u) :: us
termination_by s => s.length
decreasing_by
  · simp only [List.length_drop, List.length_cons]
    have : 1 ≤ sep.length := List.length_pos.mpr hsep
    omega
  · simp only [List.length_cons]; omega

/-- Python `sep.join(parts)`. -/
def joinSep (sep : PyStr) : List PyStr → PyStr
  | [] => []
  | [x] => x
  | x :: y :: t => x ++ sep ++ joinSep sep (y :: t)

/-- `PlantDiseaseClassifier.format_class_name`: split the raw class name on
`"___"`, replace underscores with spaces in the plant part, and in the
condition part when present, else condition is the literal `"Unknown"`. -/
def format_class_name (class_name : PyStr) : PyStr × PyStr :=
  let parts := pySplit sep3 class_name
  let plant := replUnd (parts.headD [])
  let condition := if parts.length > 1 then replUnd (parts.getD 1 []) else unknownStr
  (plant, condition)

/-- `PlantDiseaseClassifier.is_healthy`: membership of `"healthy"` in the
lower-cased class name. -/
def is_healthy (class_name : PyStr) : Bool :=
  hasSub healthyStr (lowerStr class_name)

/-- Spec-side re-joining step of the round-trip: substitute underscores for
spaces in a display part. -/
def underForSpace (s : PyStr) : PyStr :=
  s.map fun c => if c = ' ' then '_' else c

/-- Spec-side re-joining step of the round-trip: join the two display parts
with the literal separator after underscore substitution. -/
def rejoinRaw (p : PyStr × PyStr) : PyStr :=
  underForSpace p.1 ++ sep3 ++ underForSpace p.2

/-- Modelled from the spec: a well-formed raw class name follows the exact
two-part pattern Species, separator, Condition, and uses underscores in
place of spaces, so it contains no space character. -/
def wellFormed (s : PyStr) : Prop :=
  (pySplit sep3 s).length = 2 ∧ ' ' ∉ s

/-- Round a rational to the nearest integer, ties to even: the rounding
used by IEEE-754 binary arithmetic. -/
def roundNE (x : ℚ) : ℤ :=
  if x - ⌊x⌋ < 1/2 then ⌊x⌋
  else if 1/2 < x - ⌊x⌋ then ⌊x⌋ + 1
  else if 2 ∣ ⌊x⌋ then ⌊x⌋ else ⌊x⌋ + 1

/-- numpy `float32` arithmetic rounds every result to 24 significant bits.
`fl32` is that rounding on nonnegative rationals (round to nearest, ties to
even), with an unbounded exponent range: the scores this program handles
are far from both overflow and the subnormal range, where binary32 agrees
with this function. -/
def fl32 (q : ℚ) : ℚ :=
  if 0 < q then
    (roundNE (q * (2:ℚ) ^ ((23:ℤ) - Int.log 2 q)) : ℚ) * (2:ℚ) ^ (Int.log 2 q - 23)
  else 0

/-- A numpy array as produced by `preprocess_image`: a shape together with a
4-index value function (dtype float32; every value below is an exact byte,
so exact rationals model it faithfully). -/
structure Tensor4 where
  shape : List Nat
  val : Nat → Nat → Nat → Nat → ℚ

/-- PIL image modes occurring in the conversion step: grayscale, palette,
RGB and RGBA. -/
inductive PILMode
  | L
  | P
  | RGB
  | RGBA
deriving DecidableEq

/-- A decoded PIL image: mode, size, per-channel byte pixels (uint8 storage,
hence `Fin 256`), and the palette table used by `P` mode. -/
structure PILImage where
  mode : PILMode
  width : Nat
  height : Nat
  px : Nat → Nat → Nat → Fin 256
  palette : Fin 256 → Nat → Fin 256

/-- PIL `Image.convert` to RGB: grayscale replicates its single band, RGBA
drops the alpha band, palette images look each pixel up in the palette. -/
def convertRGB (img : PILImage) : PILImage :=
  { mode := PILMode.RGB
    width := img.width
    height := img.height
    palette := img.palette
    px := fun x y c =>
      match img.mode with
      | PILMode.L => img.px x y 0
      | PILMode.P => img.palette (img.px x y 0) c
      | _ => img.px x y c }

/-- Contract of PIL `Image.resize`: the reference code does not pick a
resampling filter, so the resampler is a parameter; any resampler returns
an image of the requested size in the same mode (with byte pixels, which
the `PILImage` type already guarantees). -/
def ResampleOK (resample : PILImage → Nat × Nat → PILImage) : Prop :=
  ∀ img wh, (resample img wh).width = wh.1 ∧ (resample img wh).height = wh.2 ∧
    (resample img wh).mode = img.mode

/-- `PlantDiseaseClassifier.preprocess_image`: convert to RGB if needed,
resize to 224 by 224, materialize as a float32 array (bytes, cast exactly;
no division, no normalization), and prepend a batch dimension.  numpy lays
a PIL image out as rows, so entry (0, y, x, c) is pixel (x, y), channel c. -/
def preprocess_image (resample : PILImage → Nat × Nat → PILImage)
    (image : PILImage) : Tensor4 :=
  let image1 := if image.mode = PILMode.RGB then image else convertRGB image
  let image2 := resample image1 (224, 224)
  { shape := [1, image2.height, image2.width, 3]
    val := fun _ y x c => ((image2.px x y c : ℕ) : ℚ) }

/-- A loaded Keras model: maps the preprocessed batch tensor to a batch of
score rows (`model.predict`); the code uses row 0. -/
def ModelFn := Tensor4 → List (List ℚ)

/-- The mutable state of `PlantDiseaseClassifier`: `self.model` and the
`self.class_names` dictionary (modelled as its lookup function). -/
structure Classifier where
  model : Option ModelFn
  class_names : Nat → Option PyStr

/-- `PlantDiseaseClassifier.__init__`: no model, empty dictionary. -/
def initClassifier : Classifier :=
  { model := none, class_names := fun _ => none }

/-- Outcome of the two fallible external reads inside `load`:
`keras.models.load_model` and `pd.read_csv` (with the row iteration);
`none` models the call raising. -/
structure LoadEnv where
  modelRes : Option ModelFn
  tableRes : Option (List (Nat × PyStr))

/-- Python dictionary assignment `d[key] = v`. -/
def dictInsert (d : Nat → Option PyStr) (key : Nat) (v : PyStr) :
    Nat → Option PyStr :=
  fun i => if i = key then some v else d i

/-- `PlantDiseaseClassifier.load`: assign `self.model`, then read the CSV
and fill `self.class_names` row by row; any exception is caught and `False`
is returned, leaving whatever fields were already assigned in place. -/
def load (env : LoadEnv) (c : Classifier) : Classifier × Bool :=
  match env.modelRes with
  | none => (c, false)
  | some m =>
    match env.tableRes with
    | none => ({ c with model := some m }, false)
    | some rows =>
      ({ model := some m
         class_names := rows.foldl (fun d kv => dictInsert d kv.1 kv.2) c.class_names },
       true)

/-- The error raised by `predict` when `self.model is None`
(`RuntimeError: Model not loaded`). -/
inductive ClassifyError
  | notLoaded
deriving DecidableEq

/-- Scores the model produces for an image: `model.predict(x)[0]`. -/
def scoresOf (resample : PILImage → Nat × Nat → PILImage) (m : ModelFn)
    (image : PILImage) : List ℚ :=
  (m (preprocess_image resample image)).getD 0 []

/-- `PlantDiseaseClassifier.predict`: raise when no model is loaded, else
preprocess and run the forward pass, returning the first row. -/
def predict (resample : PILImage → Nat × Nat → PILImage) (c : Classifier)
    (image : PILImage) : Except ClassifyError (List ℚ) :=
  match c.model with
  | none => Except.error ClassifyError.notLoaded
  | some m => Except.ok (scoresOf resample m image)

/-- The ascending order `np.argsort` sorts index `i` before index `j`:
smaller score first, equal scores kept in original (ascending index)
order. -/
def ascIdx (s : List ℚ) (i j : Nat) : Prop :=
  s.getD i 0 < s.getD j 0 ∨ (s.getD i 0 = s.getD j 0 ∧ i ≤ j)

instance (s : List ℚ) : DecidableRel (ascIdx s) := fun i j =>
  inferInstanceAs (Decidable (_ ∨ _))

/-- `np.argsort(predictions)`: the indices `0..n-1` sorted ascending by
score, equal scores in ascending index order (the stable ascending order
the spec attributes to the reference sort). -/
def argsort (s : List ℚ) : List Nat :=
  List.insertionSort (ascIdx s) (List.range s.length)

/-- The reverse order: descending score, equal scores in descending index
order. -/
def descIdx (s : List ℚ) (i j : Nat) : Prop := ascIdx s j i

instance (s : List ℚ) : DecidableRel (descIdx s) := fun i j =>
  inferInstanceAs (Decidable (ascIdx s j i))

/-- The canonical ranking the code produces: indices sorted by descending
score, ties by descending original index. -/
def canonicalRank (s : List ℚ) : List Nat :=
  List.insertionSort (descIdx s) (List.range s.length)

/-- Python slice `l[start:]` for an integer `start`, as used by
`[-top_k:]`. -/
def pyDropFrom (start : ℤ) (l : List Nat) : List Nat :=
  if start < 0 then l.drop ((l.length : ℤ) + start).toNat else l.drop start.toNat

/-- One element of the result list built inside `classify`'s loop. -/
structure RankedPred where
  class_index : Nat
  class_name : PyStr
  plant_name : PyStr
  condition : PyStr
  is_healthy : Bool
  confidence : ℚ
  confidence_percent : ℚ

/-- The dictionary `classify` appends for one ranked index: resolve the
class name (`"Unknown"` when the index is not in the dictionary), format
it, flag health, and attach the score; `predictions[idx] * 100` is a
float32 product, hence the `fl32` rounding, while `float(predictions[idx])`
widens exactly. -/
def mkPred (c : Classifier) (predictions : List ℚ) (idx : Nat) : RankedPred :=
  let class_name := (c.class_names idx).getD unknownStr
  { class_index := idx
    class_name := class_name
    plant_name := (format_class_name class_name).1
    condition := (format_class_name class_name).2
    is_healthy := is_healthy class_name
    confidence := predictions.getD idx 0
    confidence_percent := fl32 (predictions.getD idx 0 * 100) }

/-- `PlantDiseaseClassifier.classify`: run `predict`, take
`np.argsort(predictions)[-top_k:][::-1]`, and build the result list. -/
def classify (resample : PILImage → Nat × Nat → PILImage) (c : Classifier)
    (image : PILImage) (top_k : ℤ) : Except ClassifyError (List RankedPred) :=
  match predict resample c image with
  | Except.error e => Except.error e
  | Except.ok predictions =>
    let top_indices := (pyDropFrom (-top_k) (argsort predictions)).reverse
    Except.ok (top_indices.map (mkPred c predictions))

instance instTotalAsc (s : List ℚ) : IsTotal Nat (ascIdx s) := by
  constructor
  intro i j
  unfold ascIdx
  rcases lt_trichotomy (s.getD i 0) (s.getD j 0) with h | h | h
  · exact Or.inl (Or.inl h)
  · rcases le_total i j with hij | hij
    · exact Or.inl (Or.inr ⟨h, hij⟩)
    · exact Or.inr (Or.inr ⟨h.symm, hij⟩)
  · exact Or.inr (Or.inl h)

instance instTransAsc (s : List ℚ) : IsTrans Nat (ascIdx s) := by
  constructor
  intro a b c hab hbc
  rcases hab with h1 | ⟨e1, l1⟩
  · rcases hbc with h2 | ⟨e2, l2⟩
    · exact Or.inl (h1.trans h2)
    · exact Or.inl (lt_of_lt_of_le h1 (le_of_eq e2))
  · rcases hbc with h2 | ⟨e2, l2⟩
    · exact Or.inl (lt_of_le_of_lt (le_of_eq e1) h2)
    · exact Or.inr ⟨e1.trans e2, l1.trans l2⟩

instance instAntisymmAsc (s : List ℚ) : IsAntisymm Nat (ascIdx s) := by
  constructor
  intro a b hab hba
  rcases hab with h1 | ⟨e1, l1⟩
  · rcases hba with h2 | ⟨e2, l2⟩
    · exact absurd (h1.trans h2) (lt_irrefl _)
    · exact absurd e2 (ne_of_gt h1)
  · rcases hba with h2 | ⟨e2, l2⟩
    · exact absurd e1 (ne_of_gt h2)
    · exact le_antisymm l1 l2

instance instTotalDesc (s : List ℚ) : IsTotal Nat (descIdx s) := by
  constructor
  intro i j
  exact (instTotalAsc s).total j i

instance instTransDesc (s : List ℚ) : IsTrans Nat (descIdx s) := by
  constructor
  intro a b c hab hbc
  exact (instTransAsc s).trans c b a hbc hab

instance instAntisymmDesc (s : List ℚ) : IsAntisymm Nat (descIdx s) := by
  constructor
  intro a b hab hba
  exact (instAntisymmAsc s).antisymm a b hba hab

/-- A model that returns a fixed score row for every input tensor. -/
def constModel (scores : List ℚ) : ModelFn := fun _ => [scores]

/-- A concrete all-black RGB test image. -/
def imgBlack : PILImage :=
  { mode := PILMode.RGB
    width := 224
    height := 224
    px := fun _ _ _ => 0
    palette := fun _ _ => 0 }

/-- A concrete resampler satisfying `ResampleOK`: it keeps every pixel
function and reports the requested size. -/
def idResample : PILImage → Nat × Nat → PILImage := fun img wh =>
  { mode := img.mode
    width := wh.1
    height := wh.2
    px := img.px
    palette := img.palette }

/-- A loaded engine whose two classes score a bit-identical tie. -/
def cTie : Classifier :=
  { model := some (constModel [1, 1]), class_names := fun _ => none }

/-- A loaded engine with three distinct scores. -/
def cThree : Classifier :=
  { model := some (constModel [3, 5, 2]), class_names := fun _ => none }

/-- A load environment in which the model artifact deserializes but the
label-table read raises. -/
def envPartial : LoadEnv :=
  { modelRes := some (constModel [5, 4]), tableRes := none }

/-- A load environment in which the model artifact itself is unreadable. -/
def envBadModel : LoadEnv :=
  { modelRes := none, tableRes := some [(0, "Apple___healthy".data)] }

/-- The loaded engine of the spec scenario: catalog rows 0 and 1, the first
class scoring higher. -/
def cCat : Classifier :=
  { model := some (constModel [9, 1])
    class_names :=
      dictInsert (dictInsert (fun _ => none) 0 "Apple___Apple_scab".data) 1
        "Apple___healthy".data }

/-- The float32 value nearest to 0.1: a genuine probability score whose
float32 product with 100 is not exactly its rational product with 100. -/
def s9 : ℚ := 13421773 / 134217728

/-- A loaded engine producing the single score `s9`. -/
def cNine : Classifier :=
  { model := some (constModel [s9]), class_names := fun _ => none }

theorem pySplit_ne_nil (sep s : PyStr) : pySplit sep s ≠ [] := by
  match s with
  | [] => simp [pySplit]
  | c :: t =>
    rw [pySplit]
    split
    · simp
    · split
      · simp
      · cases h : pySplit sep t <;> simp

theorem hasSub_iff (needle hay : PyStr) :
    hasSub needle hay = true ↔ needle <:+: hay := by
  induction hay with
  | nil =>
    simp [hasSub, List.isPrefixOf_iff_prefix, List.prefix_nil, List.infix_nil]
  | cons c t ih =>
    simp only [hasSub, Bool.or_eq_true, List.isPrefixOf_iff_prefix, ih,
      List.infix_cons_iff]

theorem pySplit_eq_single (sep s : PyStr) (h : hasSub sep s = false) :
    pySplit sep s = [s] := by
  induction s with
  | nil => rw [pySplit]
  | cons c t ih =>
    rw [pySplit]
    rcases eq_or_ne sep [] with hsep | hsep
    · simp [hsep]
    · rw [dif_neg hsep]
      rw [hasSub, Bool.or_eq_false_iff] at h
      rw [if_neg (by simp [h.1]), ih h.2]

theorem joinSep_pySplit (sep s : PyStr) : joinSep sep (pySplit sep s) = s := by
  match s with
  | [] => rw [pySplit]; rfl
  | c :: t =>
    rw [pySplit]
    rcases eq_or_ne sep [] with hsep | hsep
    · rw [dif_pos hsep]; rfl
    · rw [dif_neg hsep]
      by_cases hpre : List.isPrefixOf sep (c :: t)
      · rw [if_pos hpre]
        obtain ⟨r, hr⟩ := List.isPrefixOf_iff_prefix.mp hpre
        obtain ⟨u, us, hus⟩ := List.exists_cons_of_ne_nil
          (pySplit_ne_nil sep (List.drop sep.length (c :: t)))
        have ih := joinSep_pySplit sep (List.drop sep.length (c :: t))
        rw [hus] at ih ⊢
        show sep ++ joinSep sep (u :: us) = c :: t
        rw [ih, ← hr, List.drop_left]
      · rw [if_neg hpre]
        obtain ⟨u, us, hus⟩ := List.exists_cons_of_ne_nil (pySplit_ne_nil sep t)
        have ih := joinSep_pySplit sep t
        rw [hus] at ih ⊢
        show joinSep sep ((c :: u) :: us) = c :: t
        match us with
        | [] => show c :: u = c :: t; rw [show u = t from ih]
        | v :: vs =>
          show (c :: u) ++ sep ++ joinSep sep (v :: vs) = c :: t
          rw [← ih]; rfl
termination_by s.length
decreasing_by
  · have : 1 ≤ sep.length := List.length_pos.mpr hsep
    simp only [List.length_drop, List.length_cons]
    omega
  · simp only [List.length_cons]; omega

theorem underForSpace_replUnd (l : PyStr) (h : ' ' ∉ l) :
    underForSpace (replUnd l) = l := by
  unfold underForSpace replUnd
  rw [List.map_map]
  have hpt : ∀ c ∈ l,
      ((fun c => if c = ' ' then '_' else c) ∘ fun c => if c = '_' then ' ' else c) c = id c := by
    intro c hc
    by_cases h1 : c = '_'
    · simp [h1]
    · have h2 : c ≠ ' ' := fun hh => h (hh ▸ hc)
      simp [Function.comp, h1, h2]
  rw [List.map_congr_left hpt, List.map_id]

theorem roundNE_ge_floor (x : ℚ) : ⌊x⌋ ≤ roundNE x := by
  unfold roundNE
  split
  · exact le_refl _
  · split
    · omega
    · split <;> omega

theorem roundNE_le_floor_add_one (x : ℚ) : roundNE x ≤ ⌊x⌋ + 1 := by
  unfold roundNE
  split
  · omega
  · split
    · omega
    · split <;> omega

theorem roundNE_mono {x y : ℚ} (h : x ≤ y) : roundNE x ≤ roundNE y := by
  have hf : ⌊x⌋ ≤ ⌊y⌋ := Int.floor_le_floor h
  rcases eq_or_lt_of_le hf with heq | hlt
  · -- same floor
    unfold roundNE
    rw [← heq]
    by_cases h1 : x - ⌊x⌋ < 1/2
    · rw [if_pos h1]
      split
      · exact le_refl _
      · split
        · omega
        · split <;> omega
    · rw [if_neg h1]
      have hxy : x - ⌊x⌋ ≤ y - ⌊x⌋ := by linarith
      have h1y : ¬ y - ⌊x⌋ < 1/2 := by
        intro hc; exact h1 (lt_of_le_of_lt hxy hc)
      rw [if_neg h1y]
      by_cases h2 : 1/2 < x - ⌊x⌋
      · rw [if_pos h2, if_pos (lt_of_lt_of_le h2 hxy)]
      · rw [if_neg h2]
        have hxeq : x - ⌊x⌋ = 1/2 := le_antisymm (not_lt.mp h2) (not_lt.mp h1)
        by_cases h3 : 1/2 < y - ⌊x⌋
        · rw [if_pos h3]
          split <;> omega
        · rw [if_neg h3]
  · calc roundNE x ≤ ⌊x⌋ + 1 := roundNE_le_floor_add_one x
      _ ≤ ⌊y⌋ := by omega
      _ ≤ roundNE y := roundNE_ge_floor y

/-- Characterize `Int.log 2` on a binade; used to evaluate `fl32` at
concrete inputs. -/
theorem intLog2_eq_of {q : ℚ} {e : ℤ} (h1 : (2:ℚ)^e ≤ q) (h2 : q < (2:ℚ)^(e+1)) :
    Int.log 2 q = e := by
  have hq : 0 < q := lt_of_lt_of_le (zpow_pos (by norm_num) e) h1
  have hb : (1:ℕ) < 2 := by norm_num
  have hcast : ((2:ℕ):ℚ) = (2:ℚ) := by norm_num
  refine le_antisymm ?_ ?_
  · by_contra hcon
    push_neg at hcon
    have h3 : (2:ℚ)^(e+1) ≤ (2:ℚ)^(Int.log 2 q) := zpow_le_zpow_right₀ (by norm_num) hcon
    have h4 : ((2:ℕ):ℚ)^(Int.log 2 q) ≤ q := Int.zpow_log_le_self hb hq
    rw [hcast] at h4
    linarith
  · have h1c : ((2:ℕ):ℚ)^e ≤ q := by rw [hcast]; exact h1
    have hposc : (0:ℚ) < ((2:ℕ):ℚ)^e := by rw [hcast]; exact zpow_pos (by norm_num) e
    have h5 := @Int.log_mono_right ℚ _ _ 2 (((2:ℕ):ℚ)^e) q hposc h1c
    rw [Int.log_zpow hb] at h5
    exact h5

theorem fl32_eq_of {q : ℚ} {e : ℤ} (h1 : (2:ℚ)^e ≤ q) (h2 : q < (2:ℚ)^(e+1)) :
    fl32 q = (roundNE (q * (2:ℚ) ^ ((23:ℤ) - e)) : ℚ) * (2:ℚ) ^ (e - 23) := by
  have hq : 0 < q := lt_of_lt_of_le (zpow_pos (by norm_num) e) h1
  rw [fl32, if_pos hq, intLog2_eq_of h1 h2]

theorem fl32_nonneg (q : ℚ) : 0 ≤ fl32 q := by
  rw [fl32]
  split
  · have hm : 0 < q * (2:ℚ) ^ ((23:ℤ) - Int.log 2 q) := by positivity
    have h1 : (0:ℤ) ≤ ⌊q * (2:ℚ) ^ ((23:ℤ) - Int.log 2 q)⌋ :=
      Int.floor_nonneg.mpr (le_of_lt hm)
    have h2 := roundNE_ge_floor (q * (2:ℚ) ^ ((23:ℤ) - Int.log 2 q))
    have h3 : (0:ℚ) ≤ (roundNE (q * (2:ℚ) ^ ((23:ℤ) - Int.log 2 q)) : ℚ) := by
      exact_mod_cast le_trans h1 h2
    positivity
  · exact le_refl _

theorem two_zpow_mul_two_zpow (m n : ℤ) : (2:ℚ)^m * (2:ℚ)^n = (2:ℚ)^(m+n) :=
  (zpow_add₀ (by norm_num) m n).symm

theorem fl32_le_zpow {a : ℚ} {e : ℤ} (ha : 0 < a) (hlog : Int.log 2 a = e)
    (ha2 : a < (2:ℚ)^(e+1)) : fl32 a ≤ (2:ℚ)^(e+1) := by
  simp only [fl32, if_pos ha, hlog]
  have hmp : (0:ℚ) < (2:ℚ)^((23:ℤ) - e) := zpow_pos (by norm_num) _
  have hm2 : a * (2:ℚ)^((23:ℤ) - e) < (2:ℚ)^(24:ℤ) := by
    calc a * (2:ℚ)^((23:ℤ) - e) < (2:ℚ)^(e+1) * (2:ℚ)^((23:ℤ) - e) :=
          mul_lt_mul_of_pos_right ha2 hmp
      _ = (2:ℚ)^(24:ℤ) := by rw [two_zpow_mul_two_zpow]; ring_nf
  have hfl : ⌊a * (2:ℚ)^((23:ℤ) - e)⌋ < (2:ℤ)^(24:ℕ) := by
    rw [Int.floor_lt]
    push_cast
    convert hm2 using 2
    norm_num
  have hrd : roundNE (a * (2:ℚ)^((23:ℤ) - e)) ≤ (2:ℤ)^(24:ℕ) := by
    have := roundNE_le_floor_add_one (a * (2:ℚ)^((23:ℤ) - e))
    omega
  calc (roundNE (a * (2:ℚ)^((23:ℤ) - e)) : ℚ) * (2:ℚ)^(e - 23)
      ≤ ((2:ℤ)^(24:ℕ) : ℚ) * (2:ℚ)^(e - 23) := by
        exact mul_le_mul_of_nonneg_right (by exact_mod_cast hrd)
          (le_of_lt (zpow_pos (by norm_num) _))
    _ = (2:ℚ)^(e+1) := by
        push_cast
        rw [show ((2:ℚ)^(24:ℕ)) = (2:ℚ)^((24:ℤ)) by norm_num, two_zpow_mul_two_zpow]
        ring_nf

theorem zpow_le_fl32 {b : ℚ} {e : ℤ} (hb : 0 < b) (hlog : Int.log 2 b = e)
    (hb1 : (2:ℚ)^e ≤ b) : (2:ℚ)^e ≤ fl32 b := by
  simp only [fl32, if_pos hb, hlog]
  have hmp : (0:ℚ) < (2:ℚ)^((23:ℤ) - e) := zpow_pos (by norm_num) _
  have hm1 : (2:ℚ)^(23:ℤ) ≤ b * (2:ℚ)^((23:ℤ) - e) := by
    calc (2:ℚ)^(23:ℤ) = (2:ℚ)^e * (2:ℚ)^((23:ℤ) - e) := by
          rw [two_zpow_mul_two_zpow]; ring_nf
      _ ≤ b * (2:ℚ)^((23:ℤ) - e) := mul_le_mul_of_nonneg_right hb1 (le_of_lt hmp)
  have hfl : (2:ℤ)^(23:ℕ) ≤ ⌊b * (2:ℚ)^((23:ℤ) - e)⌋ := by
    rw [Int.le_floor]
    push_cast
    convert hm1 using 2
    norm_num
  have hrd : (2:ℤ)^(23:ℕ) ≤ roundNE (b * (2:ℚ)^((23:ℤ) - e)) := by
    have := roundNE_ge_floor (b * (2:ℚ)^((23:ℤ) - e))
    omega
  calc (2:ℚ)^e = ((2:ℤ)^(23:ℕ) : ℚ) * (2:ℚ)^(e - 23) := by
        push_cast
        rw [show ((2:ℚ)^(23:ℕ)) = (2:ℚ)^((23:ℤ)) by norm_num, two_zpow_mul_two_zpow]
        ring_nf
    _ ≤ (roundNE (b * (2:ℚ)^((23:ℤ) - e)) : ℚ) * (2:ℚ)^(e - 23) :=
        mul_le_mul_of_nonneg_right (by exact_mod_cast hrd)
          (le_of_lt (zpow_pos (by norm_num) _))

theorem fl32_mono {a b : ℚ} (h : a ≤ b) : fl32 a ≤ fl32 b := by
  rcases le_or_lt a 0 with ha | ha
  · rw [show fl32 a = 0 by rw [fl32, if_neg (not_lt.mpr ha)]]
    exact fl32_nonneg b
  · have hb : 0 < b := lt_of_lt_of_le ha h
    have hcast : ((2:ℕ):ℚ) = (2:ℚ) := by norm_num
    have hee : Int.log 2 a ≤ Int.log 2 b := Int.log_mono_right ha h
    rcases eq_or_lt_of_le hee with heq | hlt
    · simp only [fl32, if_pos ha, if_pos hb, ← heq]
      have hm : a * (2:ℚ)^((23:ℤ) - Int.log 2 a) ≤ b * (2:ℚ)^((23:ℤ) - Int.log 2 a) :=
        mul_le_mul_of_nonneg_right h (le_of_lt (zpow_pos (by norm_num) _))
      exact mul_le_mul_of_nonneg_right (by exact_mod_cast roundNE_mono hm)
        (le_of_lt (zpow_pos (by norm_num) _))
    · have ha2 : a < (2:ℚ)^(Int.log 2 a + 1) := by
        have := Int.lt_zpow_succ_log_self (by norm_num : (1:ℕ) < 2) a
        rw [hcast] at this
        exact this
      have hb1 : (2:ℚ)^(Int.log 2 b) ≤ b := by
        have := Int.zpow_log_le_self (by norm_num : (1:ℕ) < 2) hb
        rw [hcast] at this
        exact this
      calc fl32 a ≤ (2:ℚ)^(Int.log 2 a + 1) := fl32_le_zpow ha rfl ha2
        _ ≤ (2:ℚ)^(Int.log 2 b) := zpow_le_zpow_right₀ (by norm_num) (by omega)
        _ ≤ fl32 b := zpow_le_fl32 hb rfl hb1

theorem argsort_perm (s : List ℚ) : (argsort s).Perm (List.range s.length) :=
  List.perm_insertionSort _ _

theorem argsort_length (s : List ℚ) : (argsort s).length = s.length := by
  rw [(argsort_perm s).length_eq, List.length_range]

theorem argsort_sorted (s : List ℚ) : List.Sorted (ascIdx s) (argsort s) :=
  List.sorted_insertionSort _ _

theorem canonicalRank_perm (s : List ℚ) :
    (canonicalRank s).Perm (List.range s.length) :=
  List.perm_insertionSort _ _

theorem canonicalRank_sorted (s : List ℚ) :
    List.Sorted (descIdx s) (canonicalRank s) :=
  List.sorted_insertionSort _ _

theorem reverse_argsort (s : List ℚ) : (argsort s).reverse = canonicalRank s := by
  refine @List.eq_of_perm_of_sorted Nat (descIdx s) _ _ _ ?_ ?_ (canonicalRank_sorted s)
  · exact ((argsort s).reverse_perm.trans (argsort_perm s)).trans (canonicalRank_perm s).symm
  · exact List.pairwise_reverse.mpr (argsort_sorted s)

/-- The slice `argsort(predictions)[-top_k:][::-1]` for a positive `top_k`
is the first `min top_k n` entries of the canonical descending ranking. -/
theorem topIndices_take (s : List ℚ) (k : ℤ) (hk : 1 ≤ k) :
    (pyDropFrom (-k) (argsort s)).reverse =
      (canonicalRank s).take (min k.toNat s.length) := by
  have hneg : -k < 0 := by omega
  rw [pyDropFrom, if_pos hneg, List.reverse_drop, reverse_argsort]
  congr 1
  rw [argsort_length]
  omega


/-- C7: for every well-formed raw class name, splitting via
`format_class_name` into (species, condition) and re-joining the two parts
with the separator after substituting underscores for spaces recovers the
original raw class name exactly. -/
theorem C7_roundtrip (s : PyStr) (h : wellFormed s) :
    rejoinRaw (format_class_name s) = s := by
  obtain ⟨hlen, hnosp⟩ := h
  obtain ⟨a, b, hp⟩ := List.length_eq_two.mp hlen
  have hjoin := joinSep_pySplit sep3 s
  rw [hp] at hjoin
  have hs : a ++ sep3 ++ b = s := hjoin
  have hna : ' ' ∉ a := fun hm =>
    hnosp (hs ▸ List.mem_append_left _ (List.mem_append_left _ hm))
  have hnb : ' ' ∉ b := fun hm =>
    hnosp (hs ▸ List.mem_append_right _ hm)
  have hfmt : format_class_name s = (replUnd a, replUnd b) := by
    simp only [format_class_name, hp]
    rfl
  rw [hfmt]
  show underForSpace (replUnd a) ++ sep3 ++ underForSpace (replUnd b) = s
  rw [underForSpace_replUnd a hna, underForSpace_replUnd b hnb, hs]

/-- C7 witness: the reference label round-trips. -/
theorem C7_roundtrip_witness :
    wellFormed "Apple___Apple_scab".data ∧
      rejoinRaw (format_class_name "Apple___Apple_scab".data) =
        "Apple___Apple_scab".data := by
  have hwf : wellFormed "Apple___Apple_scab".data := by
    constructor
    · simp [pySplit, sep3, List.isPrefixOf]
    · decide
  exact ⟨hwf, C7_roundtrip _ hwf⟩

/-- C10: on every input string the split yields at least one part, so the
`parts` head access inside `format_class_name` is safe, and when the
separator is absent the returned condition is the literal string
`"Unknown"` while the plant part is the whole (underscore-substituted)
input; together with totality of `is_healthy` this is the no-raise claim. -/
theorem C10_total_safe (s : PyStr) :
    pySplit sep3 s ≠ [] ∧
      (¬ sep3 <:+: s → format_class_name s = (replUnd s, unknownStr)) := by
  refine ⟨pySplit_ne_nil _ _, fun hni => ?_⟩
  have hf : hasSub sep3 s = false := by
    rw [← Bool.not_eq_true, hasSub_iff]
    exact hni
  simp only [format_class_name, pySplit_eq_single _ _ hf]
  rfl

/-- C10 witness: a separator-free name such as a bare species keeps plant
and gets condition `"Unknown"`. -/
theorem C10_total_safe_witness :
    pySplit sep3 "Tomato".data ≠ [] ∧
      format_class_name "Tomato".data = (replUnd "Tomato".data, unknownStr) := by
  have hni : ¬ sep3 <:+: "Tomato".data := by
    rw [← hasSub_iff]
    decide
  exact ⟨(C10_total_safe "Tomato".data).1, (C10_total_safe "Tomato".data).2 hni⟩

/-- On an engine with a loaded model, `classify` returns the mapped slice
of the argsort. -/
theorem classify_eq {resample : PILImage → Nat × Nat → PILImage}
    {c : Classifier} {image : PILImage} {m : ModelFn}
    (hm : c.model = some m) (k : ℤ) :
    classify resample c image k =
      Except.ok ((pyDropFrom (-k) (argsort (scoresOf resample m image))).reverse.map
        (mkPred c (scoresOf resample m image))) := by
  simp only [classify, predict, hm]

/-- C1 is falsified on the code: with the bit-identical score vector
`[1, 1]` and `top_k = 2`, `classify` returns class indices `[1, 0]`, not
the ascending-index tie order `[0, 1]` the claim demands. -/
theorem C1_tie_counterexample :
    (classify idResample cTie imgBlack 2).map (List.map RankedPred.class_index) =
      Except.ok [1, 0] ∧ ([1, 0] : List Nat) ≠ [0, 1] := by
  constructor
  · rfl
  · decide

/-- C1 amended: `classify` ranks class indices by descending score, and
ties between bit-identical scores resolve by descending (not ascending)
original index, because the stable ascending argsort is reversed; the
first `min top_k N` of this canonical order is returned. -/
theorem C1_rank_desc_tiebreak {resample : PILImage → Nat × Nat → PILImage}
    {c : Classifier} {image : PILImage} {m : ModelFn}
    (hm : c.model = some m) (k : ℤ) (hk : 1 ≤ k) :
    (classify resample c image k).map (List.map RankedPred.class_index) =
      Except.ok ((canonicalRank (scoresOf resample m image)).take
        (min k.toNat (scoresOf resample m image).length)) := by
  rw [classify_eq hm k]
  simp only [Except.map, List.map_map]
  rw [topIndices_take _ _ hk]
  congr 1
  have : ∀ i ∈ (canonicalRank (scoresOf resample m image)).take
      (min k.toNat (scoresOf resample m image).length),
      (RankedPred.class_index ∘ mkPred c (scoresOf resample m image)) i = id i :=
    fun i _ => rfl
  rw [List.map_congr_left this, List.map_id]

/-- C1 amended witness: at the tie vector `[1, 1]` with `top_k = 2` the
canonical descending ranking is returned. -/
theorem C1_rank_desc_tiebreak_witness :
    (1 : ℤ) ≤ 2 ∧
      (classify idResample cTie imgBlack 2).map (List.map RankedPred.class_index) =
        Except.ok ((canonicalRank [1, 1]).take (min (2:ℤ).toNat 2)) := by
  refine ⟨by norm_num, ?_⟩
  exact @C1_rank_desc_tiebreak idResample cTie imgBlack (constModel [1, 1]) rfl 2
    (by norm_num)

/-- C2 is falsified on the code: with three scores loaded, `top_k = 0`
returns all three predictions and `top_k = -1` returns two, instead of
failing `InvalidInput` and returning no prediction list. -/
theorem C2_zero_topk_counterexample :
    (classify idResample cThree imgBlack 0).map (List.map RankedPred.class_index) =
      Except.ok [1, 0, 2] ∧
    (classify idResample cThree imgBlack (-1)).map (List.map RankedPred.class_index) =
      Except.ok [1, 0] := by
  constructor
  · rfl
  · rfl

/-- C2 amended: on a loaded engine `classify` with `top_k = 0` or negative
`top_k` does not fail at all; the slice `[-top_k:]` makes it return
`N - (-top_k)` predictions (all `N` when `top_k = 0`, fewer for negative
values, floored at none). -/
theorem C2_nonpositive_topk {resample : PILImage → Nat × Nat → PILImage}
    {c : Classifier} {image : PILImage} {m : ModelFn}
    (hm : c.model = some m) (k : ℤ) (hk : k ≤ 0) :
    ∃ l, classify resample c image k = Except.ok l ∧
      l.length = (scoresOf resample m image).length - (-k).toNat := by
  rw [classify_eq hm k]
  refine ⟨_, rfl, ?_⟩
  rw [List.length_map, List.length_reverse]
  simp only [pyDropFrom]
  rw [if_neg (show ¬ (-k < 0) by omega), List.length_drop, argsort_length]

/-- C2 amended witness: `top_k = 0` on three loaded classes returns all
three predictions. -/
theorem C2_nonpositive_topk_witness :
    (0 : ℤ) ≤ 0 ∧
      ∃ l, classify idResample cThree imgBlack 0 = Except.ok l ∧ l.length = 3 := by
  obtain ⟨l, hl, hlen⟩ :=
    @C2_nonpositive_topk idResample cThree imgBlack (constModel [3, 5, 2]) rfl 0
      (le_refl 0)
  exact ⟨le_refl 0, l, hl, hlen.trans rfl⟩

/-- C3 exhibits a bug in the code: when the model artifact deserializes
but the label-table read raises, `load` returns failure yet leaves
`self.model` assigned, so a subsequent `classify` call runs inference and
returns predictions labelled `"Unknown"` instead of failing `NotLoaded`. -/
theorem C3_partial_state_bug :
    (load envBadModel initClassifier).2 = false ∧
      classify idResample (load envBadModel initClassifier).1 imgBlack 5 =
        Except.error ClassifyError.notLoaded ∧
      (load envPartial initClassifier).2 = false ∧
      (classify idResample (load envPartial initClassifier).1 imgBlack 5).map
        (List.map RankedPred.class_name) = Except.ok [unknownStr, unknownStr] :=
  ⟨rfl, rfl, rfl, rfl⟩

/-- C4: for every decodable image and any size-respecting resampler,
`preprocess_image` yields shape `[1, 224, 224, 3]`, the conversion step
lands in RGB mode, and every tensor value is exactly the byte of the
resized RGB image (so values stay in `0..255`: no division by 255, no mean
subtraction, no normalization). -/
theorem C4_preprocess_shape_range (resample : PILImage → Nat × Nat → PILImage)
    (hres : ResampleOK resample) (image : PILImage) :
    (preprocess_image resample image).shape = [1, 224, 224, 3] ∧
      (if image.mode = PILMode.RGB then image else convertRGB image).mode =
        PILMode.RGB ∧
      (∀ b y x c, (preprocess_image resample image).val b y x c =
        ((resample (if image.mode = PILMode.RGB then image else convertRGB image)
          (224, 224)).px x y c : ℕ)) ∧
      (∀ b y x c, 0 ≤ (preprocess_image resample image).val b y x c ∧
        (preprocess_image resample image).val b y x c ≤ 255) := by
  obtain ⟨hw, hh, hmode⟩ :=
    hres (if image.mode = PILMode.RGB then image else convertRGB image) (224, 224)
  refine ⟨?_, ?_, fun b y x c => rfl, fun b y x c => ⟨?_, ?_⟩⟩
  · simp only [preprocess_image]
    rw [hw, hh]
  · by_cases hrgb : image.mode = PILMode.RGB
    · rw [if_pos hrgb]; exact hrgb
    · rw [if_neg hrgb]; rfl
  · show (0:ℚ) ≤ ((_ : Fin 256) : ℕ)
    positivity
  · show (((_ : Fin 256) : ℕ) : ℚ) ≤ 255
    have hlt := Fin.is_le (resample
      (if image.mode = PILMode.RGB then image else convertRGB image) (224, 224)
        |>.px x y c)
    exact_mod_cast hlt

/-- C4 witness: the identity-style resampler meets the contract and the
black test image preprocesses to shape `[1, 224, 224, 3]`. -/
theorem C4_preprocess_shape_range_witness :
    ResampleOK idResample ∧
      (preprocess_image idResample imgBlack).shape = [1, 224, 224, 3] := by
  have hok : ResampleOK idResample := fun img wh => ⟨rfl, rfl, rfl⟩
  exact ⟨hok, (C4_preprocess_shape_range idResample hok imgBlack).1⟩

/-- C5: for every image and every `top_k` at least 1 (values beyond `N`
silently clamped), `classify` on a loaded engine returns exactly
`min top_k N` predictions, sorted by non-increasing confidence percent. -/
theorem C5_count_sorted {resample : PILImage → Nat × Nat → PILImage}
    {c : Classifier} {image : PILImage} {m : ModelFn}
    (hm : c.model = some m) (k : ℤ) (hk : 1 ≤ k) :
    ∃ l, classify resample c image k = Except.ok l ∧
      l.length = min k.toNat (scoresOf resample m image).length ∧
      l.Pairwise (fun p q => q.confidence_percent ≤ p.confidence_percent) := by
  rw [classify_eq hm k, topIndices_take _ _ hk]
  refine ⟨_, rfl, ?_, ?_⟩
  · rw [List.length_map, List.length_take, (canonicalRank_perm _).length_eq,
      List.length_range]
    omega
  · have hsorted : ((canonicalRank (scoresOf resample m image)).take
        (min k.toNat (scoresOf resample m image).length)).Pairwise
        (descIdx (scoresOf resample m image)) :=
      List.Pairwise.sublist (List.take_sublist _ _)
        (canonicalRank_sorted (scoresOf resample m image))
    refine List.Pairwise.map _ ?_ hsorted
    intro i j hij
    have hle : (scoresOf resample m image).getD j 0 ≤
        (scoresOf resample m image).getD i 0 := by
      rcases hij with h | ⟨h, _⟩
      · exact le_of_lt h
      · exact le_of_eq h
    show fl32 ((scoresOf resample m image).getD j 0 * 100) ≤
      fl32 ((scoresOf resample m image).getD i 0 * 100)
    exact fl32_mono (mul_le_mul_of_nonneg_right hle (by norm_num))

/-- C5 witness: three loaded classes, `top_k = 2`: two predictions, sorted
by non-increasing confidence percent. -/
theorem C5_count_sorted_witness :
    (1 : ℤ) ≤ 2 ∧
      ∃ l, classify idResample cThree imgBlack 2 = Except.ok l ∧
        l.length = 2 ∧
        l.Pairwise (fun p q => q.confidence_percent ≤ p.confidence_percent) := by
  obtain ⟨l, hl, hlen, hsort⟩ :=
    @C5_count_sorted idResample cThree imgBlack (constModel [3, 5, 2]) rfl 2
      (by norm_num)
  exact ⟨by norm_num, l, hl, hlen.trans rfl, hsort⟩

/-- C6: `is_healthy` is true exactly when the case-insensitive class name
contains `"healthy"`, both for any catalog entry name and for every
prediction `classify` returns (whose flag is computed from its resolved
class name). -/
theorem C6_healthy_iff :
    (∀ name : PyStr, is_healthy name = true ↔ healthyStr <:+: lowerStr name) ∧
      (∀ (resample : PILImage → Nat × Nat → PILImage) (c : Classifier)
        (image : PILImage) (k : ℤ) (l : List RankedPred),
        classify resample c image k = Except.ok l →
        ∀ p ∈ l, (p.is_healthy = true ↔ healthyStr <:+: lowerStr p.class_name)) := by
  constructor
  · intro name
    exact hasSub_iff _ _
  · intro resample c image k l hcl p hp
    cases hc : c.model with
    | none =>
      simp only [classify, predict, hc] at hcl
      exact Except.noConfusion hcl
    | some m =>
      rw [classify_eq hc k] at hcl
      obtain rfl := Except.ok.inj hcl
      obtain ⟨idx, hidx, rfl⟩ := List.mem_map.mp hp
      exact hasSub_iff _ _

/-- C6 witness: the `"Apple___healthy"` prediction of the spec scenario
satisfies the health equivalence. -/
theorem C6_healthy_iff_witness :
    (mkPred cCat [9, 1] 1).is_healthy = true ↔
      healthyStr <:+: lowerStr (mkPred cCat [9, 1] 1).class_name := by
  have hcl : classify idResample cCat imgBlack 2 =
      Except.ok [mkPred cCat [9, 1] 0, mkPred cCat [9, 1] 1] := rfl
  exact C6_healthy_iff.2 idResample cCat imgBlack 2 _ hcl _ (by simp)

/-- C8: an index absent from the catalog resolves to the sentinel: class
name `"Unknown"`, species `"Unknown"`, condition `"Unknown"`, healthy flag
false — both at the resolution level and on every prediction `classify`
returns for such an index. -/
theorem C8_unknown_sentinel :
    (format_class_name unknownStr = (unknownStr, unknownStr) ∧
      is_healthy unknownStr = false) ∧
      (∀ (resample : PILImage → Nat × Nat → PILImage) (c : Classifier)
        (image : PILImage) (k : ℤ) (l : List RankedPred),
        classify resample c image k = Except.ok l →
        ∀ p ∈ l, c.class_names p.class_index = none →
          p.class_name = unknownStr ∧ p.plant_name = unknownStr ∧
            p.condition = unknownStr ∧ p.is_healthy = false) := by
  have hno : hasSub sep3 unknownStr = false := by decide
  have hfmt : format_class_name unknownStr = (unknownStr, unknownStr) := by
    simp only [format_class_name, pySplit_eq_single _ _ hno, List.headD_cons,
      List.length_singleton]
    rw [if_neg (by norm_num)]
    decide
  have hhl : is_healthy unknownStr = false := by decide
  refine ⟨⟨hfmt, hhl⟩, ?_⟩
  intro resample c image k l hcl p hp hnone
  cases hc : c.model with
  | none =>
    simp only [classify, predict, hc] at hcl
    exact Except.noConfusion hcl
  | some m =>
    rw [classify_eq hc k] at hcl
    obtain rfl := Except.ok.inj hcl
    obtain ⟨idx, hidx, rfl⟩ := List.mem_map.mp hp
    have hnone' : c.class_names idx = none := hnone
    have hcn : (mkPred c (scoresOf resample m image) idx).class_name =
        unknownStr := by
      show (c.class_names idx).getD unknownStr = unknownStr
      rw [hnone']
      rfl
    refine ⟨hcn, ?_, ?_, ?_⟩
    · show (format_class_name ((c.class_names idx).getD unknownStr)).1 = unknownStr
      rw [hnone']
      show (format_class_name unknownStr).1 = unknownStr
      rw [hfmt]
    · show (format_class_name ((c.class_names idx).getD unknownStr)).2 = unknownStr
      rw [hnone']
      show (format_class_name unknownStr).2 = unknownStr
      rw [hfmt]
    · show is_healthy ((c.class_names idx).getD unknownStr) = false
      rw [hnone']
      exact hhl

/-- C8 witness: on an engine with an empty catalog, the prediction at
index 1 carries exactly the sentinel values. -/
theorem C8_unknown_sentinel_witness :
    (mkPred cTie [1, 1] 1).class_name = unknownStr ∧
      (mkPred cTie [1, 1] 1).plant_name = unknownStr ∧
      (mkPred cTie [1, 1] 1).condition = unknownStr ∧
      (mkPred cTie [1, 1] 1).is_healthy = false := by
  have hcl : classify idResample cTie imgBlack 2 =
      Except.ok [mkPred cTie [1, 1] 1, mkPred cTie [1, 1] 0] := rfl
  exact C8_unknown_sentinel.2 idResample cTie imgBlack 2 _ hcl _ (by simp) rfl

/-- C9 amended: for every prediction `classify` returns, the
`confidence_percent` field equals `confidence * 100` rounded to float32
precision (the numpy product `predictions[idx] * 100` is a float32
operation); the two agree exactly only when the product is representable
in 24 bits. -/
theorem C9_percent_is_fl32 {resample : PILImage → Nat × Nat → PILImage}
    {c : Classifier} {image : PILImage} (k : ℤ) (l : List RankedPred)
    (hcl : classify resample c image k = Except.ok l) :
    ∀ p ∈ l, p.confidence_percent = fl32 (p.confidence * 100) := by
  intro p hp
  cases hc : c.model with
  | none =>
    simp only [classify, predict, hc] at hcl
    exact Except.noConfusion hcl
  | some m =>
    rw [classify_eq hc k] at hcl
    obtain rfl := Except.ok.inj hcl
    obtain ⟨idx, hidx, rfl⟩ := List.mem_map.mp hp
    rfl

/-- C9 amended witness: the single returned prediction of the `cNine`
engine satisfies the float32 relation. -/
theorem C9_percent_is_fl32_witness :
    (mkPred cNine [s9] 0).confidence_percent =
      fl32 ((mkPred cNine [s9] 0).confidence * 100) := by
  exact @C9_percent_is_fl32 idResample cNine imgBlack 1 [mkPred cNine [s9] 0] rfl
    (mkPred cNine [s9] 0) (by simp)

/-- C9 is falsified on the code as stated: for the genuine float32 score
nearest 0.1, the returned `confidence_percent` is exactly 10, while
`confidence * 100` is 1342177300 / 134217728, slightly above 10; the two
differ because the float32 product rounds. -/
theorem C9_exact_percent_counterexample :
    classify idResample cNine imgBlack 1 = Except.ok [mkPred cNine [s9] 0] ∧
      (mkPred cNine [s9] 0).confidence * 100 = 1342177300 / 134217728 ∧
      (mkPred cNine [s9] 0).confidence_percent = 10 ∧
      (10 : ℚ) ≠ 1342177300 / 134217728 := by
  refine ⟨rfl, ?_, ?_, by norm_num⟩
  · show s9 * 100 = 1342177300 / 134217728
    norm_num [s9]
  · show fl32 (s9 * 100) = 10
    have hq : s9 * 100 = 335544325 / 33554432 := by norm_num [s9]
    rw [hq]
    have h1 : (2:ℚ)^(3:ℤ) ≤ 335544325 / 33554432 := by norm_num
    have h2 : (335544325 / 33554432 : ℚ) < (2:ℚ)^((3:ℤ)+1) := by norm_num
    rw [fl32_eq_of h1 h2]
    have h3 : (335544325 / 33554432 : ℚ) * (2:ℚ)^((23:ℤ) - 3) = 335544325 / 32 := by
      norm_num
    rw [h3]
    have hfl : ⌊(335544325 / 32 : ℚ)⌋ = 10485760 := by norm_num
    have h4 : roundNE (335544325 / 32 : ℚ) = 10485760 := by
      unfold roundNE
      rw [hfl]
      rw [if_pos (by norm_num)]
    rw [h4]
    norm_num
